import Mathlib

/-!
Verification of the concurrent actuator-control core of the MERG
microcontroller scripts.

The development shallowly embeds the Python sources:

* `ServoSG9x.*` embeds the servo class of `script_0_9a.py` (class constants,
  `degrees_to_ns`, motion-profile resolution, `move_servo`, `set_off`,
  `set_on`, `stepper`, `set_on_off`).  `stepper` additionally returns the
  final value of the loop variable `pw_`, exactly as the `script_0_9b.py`
  variant of the same function does (`return pw_`); `script_0_9a.py` simply
  drops that value.
* `Queue.*` embeds the bounded ring-buffer channel of `queue.py`;
  `Script_0_10.Queue.*` embeds the lock-free button-event queue of
  `script_0_10.py`, whose `add`/`pop` contain no event wait.
* `HwSwitch.get_state_db` embeds the debounced read of `script_0_8a.py`.
* `get_servo_demand` embeds the demand router of `script_0_9b.py`.
* `ServoGroup.match_demand` embeds the fan-out coordinator of
  `script_0_9a.py`.

Machine integers are embedded as `Int` (MicroPython integers are unbounded,
so no wrap-around is modelled).  Python floor division `//` and `%` with a
positive divisor agree with `Int.ediv` / `Int.emod`, which are used
throughout; every division in the embedded code has a positive divisor on
the inputs considered.  Python `float` degree values are embedded as `ℚ`;
`int(x)` truncates toward zero, which for the non-negative arguments
produced by `degrees_to_ns` equals `Int.floor`.  Cooperative-scheduling
effects (`await`) are embedded by making every state mutation of an
operation atomic, which is faithful because the Python code performs all
its mutations between two suspension points.
-/

namespace ServoSG9x

/-- Class constants of `ServoSG9x` in `script_0_9a.py`. -/
def PW_CTR : Int := 1500000

def PW_MIN : Int := 500000

def PW_MAX : Int := 2500000

def DEG_MIN : Int := 0

def DEG_MAX : Int := 180

/-- `NS_PER_DEGREE = (PW_MAX - PW_MIN) // (DEG_MAX - DEG_MIN)`. -/
def NS_PER_DEGREE : Int := Int.ediv (PW_MAX - PW_MIN) (DEG_MAX - DEG_MIN)

def OFF : Int := 0

def ON : Int := 1

/-- `motion_set` of `script_0_9a.py`. -/
def motion_set : List String :=
  ["linear", "overshoot", "bounce", "s_curve", "slowing", "semaphore"]

/-- `motion_coords` of `script_0_9a.py`.  The Python dictionary has exactly
these five keys; looking up any other key would raise `KeyError`, which is
unreachable after name resolution in `__init__`, so the embedding returns
`[]` there. -/
def motion_coords (m : String) : List (Int × Int) :=
  if m = "linear" then [(100, 100)]
  else if m = "overshoot" then [(60, 110), (70, 95), (80, 103), (90, 98), (100, 100)]
  else if m = "bounce" then [(60, 100), (70, 90), (80, 100), (90, 95), (100, 100)]
  else if m = "s_curve" then [(35, 20), (65, 80), (100, 100)]
  else if m = "slowing" then [(25, 54), (50, 81), (75, 95), (100, 100)]
  else []

/-- The motion-name fallback of `ServoSG9x.__init__`:
`if motion not in self.motion_set: motion = 'linear'`. -/
def resolve_motion (motion : String) : String :=
  if motion ∈ motion_set then motion else "linear"

/-- The `semaphore` split of `ServoSG9x.__init__`: the resolved name is
mapped to the pair `(motion_on, motion_off)`. -/
def motion_on_off (motion : String) : String × String :=
  let m := resolve_motion motion
  if m = "semaphore" then ("overshoot", "bounce") else (m, m)

/-- `ServoSG9x.degrees_to_ns` of `script_0_9a.py`:
`int(PW_MIN + (degrees - DEG_MIN) * NS_PER_DEGREE)` when
`DEG_MIN <= degrees <= DEG_MAX`, else `PW_CTR`.  The argument of `int` is
non-negative in the in-range branch, so truncation equals `Int.floor`. -/
def degrees_to_ns (degrees : ℚ) : Int :=
  if (DEG_MIN : ℚ) ≤ degrees ∧ degrees ≤ (DEG_MAX : ℚ) then
    Int.floor ((PW_MIN : ℚ) + (degrees - (DEG_MIN : ℚ)) * (NS_PER_DEGREE : ℚ))
  else PW_CTR

end ServoSG9x

/-- C8: an out-of-range angle falls back to the centre pulse width and an
unrecognized motion-profile name resolves to the `linear` profile; neither
raises. -/
theorem C8_config_fallback :
    (∀ d : ℚ, ¬ ((ServoSG9x.DEG_MIN : ℚ) ≤ d ∧ d ≤ (ServoSG9x.DEG_MAX : ℚ)) →
      ServoSG9x.degrees_to_ns d = ServoSG9x.PW_CTR) ∧
    (∀ m : String, m ∉ ServoSG9x.motion_set →
      ServoSG9x.resolve_motion m = "linear") := by
  constructor
  · intro d h
    simp [ServoSG9x.degrees_to_ns, h]
  · intro m h
    simp [ServoSG9x.resolve_motion, h]

/-- Witness for `C8_config_fallback` at the angle `200` and the profile
name `cubic`. -/
theorem C8_config_fallback_witness :
    (¬ ((ServoSG9x.DEG_MIN : ℚ) ≤ 200 ∧ (200 : ℚ) ≤ (ServoSG9x.DEG_MAX : ℚ)) ∧
      ServoSG9x.degrees_to_ns 200 = ServoSG9x.PW_CTR) ∧
    ("cubic" ∉ ServoSG9x.motion_set ∧
      ServoSG9x.resolve_motion "cubic" = "linear") := by
  refine ⟨⟨?_, ?_⟩, ⟨?_, ?_⟩⟩
  · intro h
    have := h.2
    norm_num [ServoSG9x.DEG_MAX] at this
  · exact C8_config_fallback.1 200 (by intro h; have := h.2; norm_num [ServoSG9x.DEG_MAX] at this)
  · decide
  · exact C8_config_fallback.2 "cubic" (by decide)

/-- C9: `degrees_to_ns` is monotone on the valid angle range: for angles
`a < b` within `[DEG_MIN, DEG_MAX]` the returned pulse width for `a` is at
most the one for `b`. -/
theorem C9_degrees_to_ns_monotone (a b : ℚ)
    (ha : (ServoSG9x.DEG_MIN : ℚ) ≤ a) (hab : a < b)
    (hb : b ≤ (ServoSG9x.DEG_MAX : ℚ)) :
    ServoSG9x.degrees_to_ns a ≤ ServoSG9x.degrees_to_ns b := by
  have hns : (0 : ℚ) ≤ (ServoSG9x.NS_PER_DEGREE : ℚ) := by
    norm_num [ServoSG9x.NS_PER_DEGREE, ServoSG9x.PW_MAX, ServoSG9x.PW_MIN,
      ServoSG9x.DEG_MAX, ServoSG9x.DEG_MIN]
  have hA : (ServoSG9x.DEG_MIN : ℚ) ≤ a ∧ a ≤ (ServoSG9x.DEG_MAX : ℚ) :=
    ⟨ha, le_trans (le_of_lt hab) hb⟩
  have hB : (ServoSG9x.DEG_MIN : ℚ) ≤ b ∧ b ≤ (ServoSG9x.DEG_MAX : ℚ) :=
    ⟨le_trans ha (le_of_lt hab), hb⟩
  rw [ServoSG9x.degrees_to_ns, ServoSG9x.degrees_to_ns, if_pos hA, if_pos hB]
  apply Int.floor_le_floor
  have : a - (ServoSG9x.DEG_MIN : ℚ) ≤ b - (ServoSG9x.DEG_MIN : ℚ) := by linarith
  nlinarith [mul_le_mul_of_nonneg_right this hns]

/-- Witness for `C9_degrees_to_ns_monotone` at the angles `10 < 20`. -/
theorem C9_degrees_to_ns_monotone_witness :
    ((ServoSG9x.DEG_MIN : ℚ) ≤ 10 ∧ (10 : ℚ) < 20 ∧
      (20 : ℚ) ≤ (ServoSG9x.DEG_MAX : ℚ)) ∧
    ServoSG9x.degrees_to_ns 10 ≤ ServoSG9x.degrees_to_ns 20 := by
  refine ⟨⟨?_, ?_, ?_⟩, ?_⟩
  · norm_num [ServoSG9x.DEG_MIN]
  · norm_num
  · norm_num [ServoSG9x.DEG_MAX]
  · exact C9_degrees_to_ns_monotone 10 20 (by norm_num [ServoSG9x.DEG_MIN])
      (by norm_num) (by norm_num [ServoSG9x.DEG_MAX])

namespace HwSwitch

/-- `HwSwitch.n_readings` of `script_0_8a.py`: number of raw samples taken
by a debounced read. -/
def n_readings : Nat := 3

/-- `HwSwitch.get_state_db` of `script_0_8a.py` as a function of the raw
pin samples it takes.  The coroutine fills `readings[0] .. readings[2]`
with consecutive `Pin.value()` samples (0 = closed under pull-up wiring,
1 = open) and returns `0 if any(readings) else 1`; Python `any` on
integers tests for a non-zero element. -/
def get_state_db (raw : Fin n_readings → Nat) : Nat :=
  if (List.ofFn raw).any (fun v => decide (v ≠ 0)) then 0 else 1

end HwSwitch

/-- C6: a debounced read returns on (1) iff all `n_readings = 3` raw
samples read closed (raw value 0), and returns off (0) iff some sample
reads open. -/
theorem C6_debounce_all_closed (raw : Fin HwSwitch.n_readings → Nat) :
    (HwSwitch.get_state_db raw = 1 ↔ ∀ i, raw i = 0) ∧
    (HwSwitch.get_state_db raw = 0 ↔ ∃ i, raw i ≠ 0) := by
  have hany : ((List.ofFn raw).any (fun v => decide (v ≠ 0)) = true) ↔ ∃ i, raw i ≠ 0 := by
    rw [List.any_eq_true]
    constructor
    · rintro ⟨v, hv, hdec⟩
      obtain ⟨i, rfl⟩ := Set.mem_range.mp ((List.mem_ofFn raw v).mp hv)
      exact ⟨i, of_decide_eq_true hdec⟩
    · rintro ⟨i, hi⟩
      exact ⟨raw i, (List.mem_ofFn raw (raw i)).mpr (Set.mem_range.mpr ⟨i, rfl⟩),
        decide_eq_true hi⟩
  by_cases hb : ((List.ofFn raw).any fun v => decide (v ≠ 0)) = true
  · obtain ⟨i, hi⟩ := hany.mp hb
    have hget : HwSwitch.get_state_db raw = 0 := by
      rw [HwSwitch.get_state_db, if_pos hb]
    refine ⟨?_, ?_⟩
    · rw [hget]
      exact ⟨fun h => absurd h (by norm_num), fun hall => absurd (hall i) hi⟩
    · rw [hget]
      exact ⟨fun _ => ⟨i, hi⟩, fun _ => rfl⟩
  · have hget : HwSwitch.get_state_db raw = 1 := by
      rw [HwSwitch.get_state_db, if_neg hb]
    have hall : ∀ i, raw i = 0 := by
      intro i
      by_contra hi
      exact hb (hany.mpr ⟨i, hi⟩)
    refine ⟨?_, ?_⟩
    · rw [hget]
      exact ⟨fun _ => hall, fun _ => rfl⟩
    · rw [hget]
      exact ⟨fun h => absurd h (by norm_num), fun ⟨i, hi⟩ => absurd (hall i) hi⟩

/-- The demand router `get_servo_demand` of `script_0_9b.py` (identical
helper in `script_0_9a.py` and `script_0_8a.py`).  Python dictionaries are
embedded as: the iterated switch-state dictionary as an association list in
iteration order, the switch-to-servos binding as a total lookup function
(every observed switch pin is a key of `switch_servos_` in the scripts),
and the resulting `servo_demand` dictionary as a partial lookup function
built by repeated assignment, so a later assignment to the same servo pin
overwrites an earlier one exactly as in Python. -/
def get_servo_demand (sw_states : List (Nat × Nat))
    (switch_servos : Nat → List Nat) : Nat → Option Nat :=
  sw_states.foldl
    (fun acc sw =>
      (switch_servos sw.1).foldl
        (fun a servo_pin => fun q => if q = servo_pin then some sw.2 else a q) acc)
    (fun _ => none)

/-- The inner `for servo_pin_ in switch_servos_[sw_pin_]` loop writes the
same value at every listed pin, so its effect on a lookup is membership. -/
theorem get_servo_demand_inner (l : List Nat) (v : Nat)
    (acc : Nat → Option Nat) (q : Nat) :
    (l.foldl (fun a servo_pin => fun q' => if q' = servo_pin then some v else a q') acc) q
      = if q ∈ l then some v else acc q := by
  induction l generalizing acc with
  | nil => simp
  | cons p rest ih =>
    simp only [List.foldl_cons, ih, List.mem_cons]
    by_cases hq : q ∈ rest
    · simp [hq]
    · by_cases hp : q = p <;> simp [hq, hp]

/-- The outer fold realises last-write-wins: the final binding of a servo
pin comes from the last switch in iteration order that lists it. -/
theorem get_servo_demand_eq_find (sw_states : List (Nat × Nat))
    (switch_servos : Nat → List Nat) (acc : Nat → Option Nat) (q : Nat) :
    (sw_states.foldl
      (fun acc' sw =>
        (switch_servos sw.1).foldl
          (fun a servo_pin => fun q' => if q' = servo_pin then some sw.2 else a q') acc')
      acc) q
      = match sw_states.reverse.find? (fun sw => decide (q ∈ switch_servos sw.1)) with
        | some sw => some sw.2
        | none => acc q := by
  induction sw_states generalizing acc with
  | nil => simp
  | cons sw rest ih =>
    simp only [List.foldl_cons, List.reverse_cons, List.find?_append]
    rw [ih]
    cases hfind : rest.reverse.find? (fun sw' => decide (q ∈ switch_servos sw'.1)) with
    | some sw' => simp [hfind, Option.orElse]
    | none =>
      simp only [hfind]
      rw [get_servo_demand_inner]
      by_cases hq : q ∈ switch_servos sw.1 <;> simp [hq, List.find?, Option.orElse]

/-- C7: the demand router is a pure function assigning to every actuator
the state of the last switch in iteration order that binds it
(last-write-wins), and on the concrete scenario with switch map
`{16: [0, 1], 17: [2]}` and switch states `{16: 1, 17: 0}` it yields the
demand batch `{0: 1, 1: 1, 2: 0}`. -/
theorem C7_demand_router :
    (∀ (sw_states : List (Nat × Nat)) (switch_servos : Nat → List Nat) (q : Nat),
      get_servo_demand sw_states switch_servos q
        = match sw_states.reverse.find? (fun sw => decide (q ∈ switch_servos sw.1)) with
          | some sw => some sw.2
          | none => none) ∧
    (let switch_servos : Nat → List Nat :=
      fun p => if p = 16 then [0, 1] else if p = 17 then [2] else []
     get_servo_demand [(16, 1), (17, 0)] switch_servos 0 = some 1 ∧
     get_servo_demand [(16, 1), (17, 0)] switch_servos 1 = some 1 ∧
     get_servo_demand [(16, 1), (17, 0)] switch_servos 2 = some 0) := by
  constructor
  · intro sw_states switch_servos q
    rw [get_servo_demand, get_servo_demand_eq_find]
  · exact ⟨by decide, by decide, by decide⟩

/-- The bounded FIFO channel of `queue.py`.  `queue` is the fixed ring
list created as `[None] * length`, `head`/`next` the ring indices and
`is_data`/`is_space` the readiness events (`is_set` values). -/
structure Queue (α : Type) where
  length : Nat
  queue : List (Option α)
  head : Nat
  next : Nat
  is_data : Bool
  is_space : Bool

/-- `Queue.__init__` of `queue.py`: empty ring, both indices 0, `is_data`
clear, `is_space` set. -/
def Queue.init (α : Type) (length : Nat) : Queue α :=
  ⟨length, List.replicate length none, 0, 0, false, true⟩

/-- `Queue.put` of `queue.py`, the state change performed once
`is_space.wait()` has returned inside the producer lock: write the item at
`next`, advance `next` mod `length`, clear `is_space` when the ring became
full, set `is_data`.  All of this happens without an intervening suspension
point, hence as one atomic step of the cooperative scheduler. -/
def Queue.put {α : Type} (s : Queue α) (item : α) : Queue α :=
  let nxt := (s.next + 1) % s.length
  { s with
    queue := s.queue.set s.next (some item)
    next := nxt
    is_space := if nxt = s.head then false else s.is_space
    is_data := true }

/-- `Queue.get` of `queue.py`, the state change performed once
`is_data.wait()` has returned: read the item at `head`, advance `head` mod
`length`, clear `is_data` when the ring became empty, set `is_space`; the
read item is returned.  As for `put`, this is one atomic step. -/
def Queue.get {α : Type} (s : Queue α) : Queue α × Option α :=
  let item := s.queue.getD s.head none
  let hd := (s.head + 1) % s.length
  ({ s with
     head := hd
     is_data := if hd = s.next then false else s.is_data
     is_space := true }, item)

/-- Executions of the channel: any interleaving of completed `put` and
`get` operations starting from the empty channel of capacity `C`.  A `put`
completes only while `is_space` is set and a `get` only while `is_data` is
set — exactly the states in which the corresponding `Event.wait()` calls
return; in any other state the operation stays suspended and changes
nothing.  `puts` collects the items of completed puts in completion order
(concurrent producers are serialized by `put_lock`), `gets` the values
returned by completed gets in order (single consumer). -/
inductive Queue.Run (α : Type) (C : Nat) :
    Queue α → List α → List (Option α) → Prop
  | init : Queue.Run α C (Queue.init α C) [] []
  | put {s : Queue α} {puts : List α} {gets : List (Option α)} (item : α) :
      Queue.Run α C s puts gets → s.is_space = true →
      Queue.Run α C (Queue.put s item) (puts ++ [item]) gets
  | get {s : Queue α} {puts : List α} {gets : List (Option α)} :
      Queue.Run α C s puts gets → s.is_data = true →
      Queue.Run α C (Queue.get s).1 puts (gets ++ [(Queue.get s).2])

/-- The unconsumed region of the ring: the `n` slots starting at `head`. -/
def Queue.ringSlice {α : Type} (s : Queue α) (n : Nat) : List (Option α) :=
  (List.range n).map fun i => s.queue.getD ((s.head + i) % s.length) none

/-- The channel invariant tying a state to its operation history.  The
item count of the channel is `puts.length - gets.length`. -/
def Queue.Inv {α : Type} (C : Nat) (s : Queue α) (puts : List α)
    (gets : List (Option α)) : Prop :=
  s.length = C ∧
  s.queue.length = C ∧
  s.head < C ∧
  gets.length ≤ puts.length ∧
  puts.length - gets.length ≤ C ∧
  s.next = (s.head + (puts.length - gets.length)) % C ∧
  s.is_data = decide (puts.length - gets.length ≠ 0) ∧
  s.is_space = decide (puts.length - gets.length ≠ C) ∧
  Queue.ringSlice s (puts.length - gets.length) = (puts.drop gets.length).map some ∧
  gets = (puts.take gets.length).map some

/-- Adding a full wrap of the ring to an in-range index is the only way to
come back to it. -/
theorem Queue.add_mod_self_iff (C h k : Nat) (hh : h < C) (hk0 : 0 < k)
    (hkC : k ≤ C) : ((h + k) % C = h ↔ k = C) := by
  constructor
  · intro he
    have h1 : h % C = (h + k) % C := by rw [he, Nat.mod_eq_of_lt hh]
    have h2 : C ∣ (h + k) - h := (Nat.modEq_iff_dvd' (Nat.le_add_right h k)).mp h1
    have h3 : C ∣ k := by
      have : (h + k) - h = k := by omega
      rwa [this] at h2
    exact le_antisymm hkC (Nat.le_of_dvd hk0 h3)
  · intro he
    rw [he, Nat.add_mod_right, Nat.mod_eq_of_lt hh]

/-- Two in-range offsets from the same start land on the same ring slot
only if they are equal. -/
theorem Queue.add_mod_inj (C h i j : Nat) (hi : i < C) (hj : j < C)
    (he : (h + i) % C = (h + j) % C) : i = j := by
  have hm : i ≡ j [MOD C] := Nat.ModEq.add_left_cancel' h he
  rcases Nat.le_total i j with hle | hle
  · have hd : C ∣ j - i := (Nat.modEq_iff_dvd' hle).mp hm
    have : j - i = 0 := Nat.eq_zero_of_dvd_of_lt hd (by omega)
    omega
  · have hd : C ∣ i - j := (Nat.modEq_iff_dvd' hle).mp hm.symm
    have : i - j = 0 := Nat.eq_zero_of_dvd_of_lt hd (by omega)
    omega

/-- Advancing `head` one slot reaches `next` exactly when one item is
pending. -/
theorem Queue.mod_shift_eq_iff (C h n : Nat) (h1 : 1 ≤ n) (hn : n ≤ C) :
    ((h + 1) % C = (h + n) % C ↔ n = 1) := by
  constructor
  · intro he
    have hm : (1 : Nat) ≡ n [MOD C] := Nat.ModEq.add_left_cancel' h he
    have hd : C ∣ n - 1 := (Nat.modEq_iff_dvd' h1).mp hm
    have : n - 1 = 0 := Nat.eq_zero_of_dvd_of_lt hd (by omega)
    omega
  · intro he
    rw [he]

/-- Every reachable channel state satisfies the channel invariant.  This
is the master lemma behind the channel claims. -/
theorem Queue.run_inv {α : Type} {C : Nat} {s : Queue α} {puts : List α}
    {gets : List (Option α)} (hrun : Queue.Run α C s puts gets) (hC : 1 ≤ C) :
    Queue.Inv C s puts gets := by
  induction hrun with
  | init =>
    refine ⟨rfl, List.length_replicate C none, hC, le_refl 0, ?_, ?_, ?_, ?_, ?_, rfl⟩
    · simp
    · simp [Queue.init]
    · simp [Queue.init]
    · show true = decide (List.length ([] : List α) - List.length ([] : List (Option α)) ≠ C)
      symm
      exact decide_eq_true (by simp; omega)
    · simp [Queue.ringSlice]
  | put item hrun hspace ih =>
    obtain ⟨hlen, hqlen, hhead, hgp, hnC, hnext, hdat, hspc, hslice, hgets⟩ := ih
    rename_i s puts gets
    set n := puts.length - gets.length with hn
    have hnltC : n < C := by
      have h1 : decide (n ≠ C) = true := by rw [← hspc, hspace]
      have h2 := of_decide_eq_true h1
      omega
    have hsnextlt : s.next < C := by
      rw [hnext]
      exact Nat.mod_lt _ (by omega)
    have hc : (puts ++ [item]).length - gets.length = n + 1 := by
      simp only [List.length_append, List.length_cons, List.length_nil]
      omega
    refine ⟨?_, ?_, ?_, ?_, ?_, ?_, ?_, ?_, ?_, ?_⟩
    · show s.length = C
      exact hlen
    · show (s.queue.set s.next (some item)).length = C
      rw [List.length_set]
      exact hqlen
    · show s.head < C
      exact hhead
    · show gets.length ≤ (puts ++ [item]).length
      simp only [List.length_append, List.length_cons, List.length_nil]
      omega
    · rw [hc]
      omega
    · show (s.next + 1) % s.length = (s.head + ((puts ++ [item]).length - gets.length)) % C
      rw [hc, hlen, hnext, Nat.mod_add_mod]
      congr 1
    · show true = decide ((puts ++ [item]).length - gets.length ≠ 0)
      rw [hc]
      symm
      exact decide_eq_true (by omega)
    · show (if (s.next + 1) % s.length = s.head then false else s.is_space)
        = decide ((puts ++ [item]).length - gets.length ≠ C)
      rw [hc, hlen, hnext, Nat.mod_add_mod]
      have hassoc : s.head + n + 1 = s.head + (n + 1) := rfl
      rw [hassoc]
      by_cases hfull : n + 1 = C
      · rw [if_pos ((Queue.add_mod_self_iff C s.head (n + 1) hhead (by omega) (by omega)).mpr hfull)]
        symm
        exact decide_eq_false (by omega)
      · rw [if_neg (fun hcon =>
          hfull ((Queue.add_mod_self_iff C s.head (n + 1) hhead (by omega) (by omega)).mp hcon)),
          hspace]
        symm
        exact decide_eq_true hfull
    · show Queue.ringSlice (Queue.put s item) ((puts ++ [item]).length - gets.length)
        = ((puts ++ [item]).drop gets.length).map some
      rw [hc, List.drop_append_of_le_length hgp]
      simp only [Queue.ringSlice]
      rw [List.range_succ n]
      simp only [List.map_append, List.map_cons, List.map_nil]
      have hmain : ∀ i ∈ List.range n,
          (Queue.put s item).queue.getD
            (((Queue.put s item).head + i) % (Queue.put s item).length) none
            = s.queue.getD ((s.head + i) % s.length) none := by
        intro i hi
        have hilt : i < n := List.mem_range.mp hi
        show (s.queue.set s.next (some item)).getD ((s.head + i) % s.length) none
          = s.queue.getD ((s.head + i) % s.length) none
        have hne : (s.head + i) % s.length ≠ s.next := by
          rw [hlen, hnext]
          intro hcon
          have := Queue.add_mod_inj C s.head i n (by omega) (by omega) hcon
          omega
        rw [List.getD_eq_getElem?_getD, List.getElem?_set_ne (fun h => hne h.symm),
          ← List.getD_eq_getElem?_getD]
      have hlast : (Queue.put s item).queue.getD
          (((Queue.put s item).head + n) % (Queue.put s item).length) none = some item := by
        show (s.queue.set s.next (some item)).getD ((s.head + n) % s.length) none = some item
        rw [hlen, ← hnext]
        rw [List.getD_eq_getElem?_getD, List.getElem?_set_eq_of_lt (some item) (by omega)]
        rfl
      rw [List.map_eq_map_iff.mpr hmain, hlast]
      rw [show (List.range n).map (fun i => s.queue.getD ((s.head + i) % s.length) none)
          = (puts.drop gets.length).map some from hslice]
    · show gets = ((puts ++ [item]).take gets.length).map some
      rw [List.take_append_of_le_length hgp]
      exact hgets
  | get hrun hdata ih =>
    obtain ⟨hlen, hqlen, hhead, hgp, hnC, hnext, hdat, hspc, hslice, hgets⟩ := ih
    rename_i s puts gets
    set n := puts.length - gets.length with hn
    have hn1 : 1 ≤ n := by
      have h1 : decide (n ≠ 0) = true := by rw [← hdat, hdata]
      have h2 := of_decide_eq_true h1
      omega
    have hglt : gets.length < puts.length := by omega
    have hdropg : puts.drop gets.length
        = puts[gets.length] :: puts.drop (gets.length + 1) :=
      List.drop_eq_getElem_cons hglt
    have hrn : List.range n = 0 :: (List.range (n - 1)).map Nat.succ := by
      conv_lhs => rw [show n = (n - 1) + 1 from by omega]
      exact List.range_succ_eq_map (n - 1)
    have hexp : Queue.ringSlice s n
        = s.queue.getD (s.head % s.length) none
          :: (List.range (n - 1)).map
            (fun i => s.queue.getD ((s.head + Nat.succ i) % s.length) none) := by
      show (List.range n).map (fun i => s.queue.getD ((s.head + i) % s.length) none) = _
      rw [hrn]
      simp only [List.map_cons, List.map_map, Nat.add_zero]
      rfl
    have hcmp : s.queue.getD (s.head % s.length) none
          :: (List.range (n - 1)).map
            (fun i => s.queue.getD ((s.head + Nat.succ i) % s.length) none)
        = some puts[gets.length] :: (puts.drop (gets.length + 1)).map some := by
      rw [← hexp, hslice, hdropg]
      simp only [List.map_cons]
    have hhead0 : s.queue.getD (s.head % s.length) none = some puts[gets.length] := by
      injection hcmp
    have htail0 : (List.range (n - 1)).map
          (fun i => s.queue.getD ((s.head + Nat.succ i) % s.length) none)
        = (puts.drop (gets.length + 1)).map some := by
      injection hcmp
    rw [hlen, Nat.mod_eq_of_lt hhead] at hhead0
    have hitem_val : (Queue.get s).2 = some puts[gets.length] := hhead0
    have hc : puts.length - (gets ++ [(Queue.get s).2]).length = n - 1 := by
      simp only [List.length_append, List.length_cons, List.length_nil]
      omega
    refine ⟨?_, ?_, ?_, ?_, ?_, ?_, ?_, ?_, ?_, ?_⟩
    · show s.length = C
      exact hlen
    · show s.queue.length = C
      exact hqlen
    · show (s.head + 1) % s.length < C
      rw [hlen]
      exact Nat.mod_lt _ (by omega)
    · show (gets ++ [(Queue.get s).2]).length ≤ puts.length
      simp only [List.length_append, List.length_cons, List.length_nil]
      omega
    · rw [hc]
      omega
    · show s.next = ((s.head + 1) % s.length + (puts.length - (gets ++ [(Queue.get s).2]).length)) % C
      rw [hc, hlen, Nat.mod_add_mod, hnext]
      congr 1
      omega
    · show (if (s.head + 1) % s.length = s.next then false else s.is_data)
        = decide (puts.length - (gets ++ [(Queue.get s).2]).length ≠ 0)
      rw [hc, hlen, hnext]
      by_cases hone : n = 1
      · rw [if_pos ((Queue.mod_shift_eq_iff C s.head n hn1 hnC).mpr hone)]
        symm
        exact decide_eq_false (by omega)
      · rw [if_neg (fun hcon =>
          hone ((Queue.mod_shift_eq_iff C s.head n hn1 hnC).mp hcon)), hdata]
        symm
        exact decide_eq_true (by omega)
    · show true = decide (puts.length - (gets ++ [(Queue.get s).2]).length ≠ C)
      rw [hc]
      symm
      exact decide_eq_true (by omega)
    · show Queue.ringSlice (Queue.get s).1 (puts.length - (gets ++ [(Queue.get s).2]).length)
        = (puts.drop (gets ++ [(Queue.get s).2]).length).map some
      rw [hc]
      have hlen2 : (gets ++ [(Queue.get s).2]).length = gets.length + 1 := by
        simp only [List.length_append, List.length_cons, List.length_nil]
      rw [hlen2]
      simp only [Queue.ringSlice]
      have hfun : ∀ i ∈ List.range (n - 1),
          (Queue.get s).1.queue.getD
            (((Queue.get s).1.head + i) % (Queue.get s).1.length) none
            = s.queue.getD ((s.head + Nat.succ i) % s.length) none := by
        intro i _
        show s.queue.getD (((s.head + 1) % s.length + i) % s.length) none
          = s.queue.getD ((s.head + Nat.succ i) % s.length) none
        rw [Nat.mod_add_mod]
        have hidx : s.head + 1 + i = s.head + Nat.succ i := by omega
        rw [hidx]
      rw [List.map_eq_map_iff.mpr hfun]
      exact htail0
    · show gets ++ [(Queue.get s).2] = (puts.take ((gets ++ [(Queue.get s).2]).length)).map some
      have hlen2 : (gets ++ [(Queue.get s).2]).length = gets.length + 1 := by
        simp only [List.length_append, List.length_cons, List.length_nil]
      rw [hlen2, List.take_succ, List.getElem?_eq_getElem hglt]
      simp only [Option.toList_some, List.map_append, List.map_cons, List.map_nil]
      rw [← hgets, hitem_val]

/-- C3: in every reachable state of the bounded channel (any capacity
`C ≥ 1`, any interleaving of completed put and get operations starting
from the empty channel), `is_data` is false iff the item count (completed
puts minus completed gets) is 0, and `is_space` is false iff the item
count equals the capacity `C`. -/
theorem C3_channel_flags {α : Type} {C : Nat} {s : Queue α} {puts : List α}
    {gets : List (Option α)} (hrun : Queue.Run α C s puts gets) (hC : 1 ≤ C) :
    (s.is_data = false ↔ puts.length - gets.length = 0) ∧
    (s.is_space = false ↔ puts.length - gets.length = C) := by
  obtain ⟨-, -, -, -, -, -, hdat, hspc, -, -⟩ := Queue.run_inv hrun hC
  constructor
  · rw [hdat, decide_eq_false_iff_not]
    exact not_ne_iff
  · rw [hspc, decide_eq_false_iff_not]
    exact not_ne_iff

/-- Witness for `C3_channel_flags`: one completed put on an empty channel
of capacity 2. -/
theorem C3_channel_flags_witness :
    ((Queue.put (Queue.init Nat 2) 7).is_data = false
      ↔ ([] ++ [7] : List Nat).length - ([] : List (Option Nat)).length = 0) ∧
    ((Queue.put (Queue.init Nat 2) 7).is_space = false
      ↔ ([] ++ [7] : List Nat).length - ([] : List (Option Nat)).length = 2) :=
  C3_channel_flags (Queue.Run.put 7 Queue.Run.init rfl) (by omega)

/-- C4: for every capacity `C ≥ 1` and every put/get sequence respecting
backpressure (a put completes only while the channel is not full, a get
only while it is not empty), the values received are exactly the put items
in put-completion order: FIFO. -/
theorem C4_channel_fifo {α : Type} {C : Nat} {s : Queue α} {puts : List α}
    {gets : List (Option α)} (hrun : Queue.Run α C s puts gets) (hC : 1 ≤ C) :
    gets = (puts.map some).take gets.length := by
  obtain ⟨-, -, -, -, -, -, -, -, -, hgets⟩ := Queue.run_inv hrun hC
  calc gets = (puts.take gets.length).map some := hgets
    _ = (puts.map some).take gets.length := by rw [List.map_take]

/-- Witness for `C4_channel_fifo`: put 3 then get on a channel of
capacity 1. -/
theorem C4_channel_fifo_witness :
    ([] ++ [(Queue.get (Queue.put (Queue.init Nat 1) 3)).2])
      = (([] ++ [3] : List Nat).map some).take
          ([] ++ [(Queue.get (Queue.put (Queue.init Nat 1) 3)).2]).length :=
  C4_channel_fifo (Queue.Run.get (Queue.Run.put 3 Queue.Run.init rfl) rfl) (by omega)

/-- C5 (amended, for `queue.py`'s channel, whose `put` waits for
`is_space` inside the producer lock and whose `get` waits for `is_data`):
no backpressure-respecting operation sequence loses an enqueued item —
the completed puts are exactly the received values followed by the
pending region of the ring (nothing is dropped or overwritten before
being consumed), and a completed get never returns the `None` sentinel
the ring was initialised with.  `script_0_10.py`'s lock-free `Queue`
does not satisfy the original claim: its `add` on a full ring overwrites
the oldest unread slot, as the counterexample below shows. -/
theorem C5_channel_no_loss {α : Type} {C : Nat} {s : Queue α} {puts : List α}
    {gets : List (Option α)} (hrun : Queue.Run α C s puts gets) (hC : 1 ≤ C) :
    puts.map some = gets ++ Queue.ringSlice s (puts.length - gets.length) ∧
    ∀ x ∈ gets, x ≠ none := by
  obtain ⟨-, -, -, -, -, -, -, -, hslice, hgets⟩ := Queue.run_inv hrun hC
  constructor
  · calc puts.map some
        = (puts.take gets.length).map some ++ (puts.drop gets.length).map some := by
          rw [← List.map_append, List.take_append_drop]
      _ = gets ++ Queue.ringSlice s (puts.length - gets.length) := by
          rw [← hgets, ← hslice]
  · intro x hx
    rw [hgets] at hx
    obtain ⟨a, -, rfl⟩ := List.mem_map.mp hx
    simp

/-- Witness for `C5_channel_no_loss`: put 4, put 5, then one get on a
channel of capacity 2. -/
theorem C5_channel_no_loss_witness :
    ((([] ++ [4]) ++ [5] : List Nat).map some
      = ([] ++ [(Queue.get (Queue.put (Queue.put (Queue.init Nat 2) 4) 5)).2])
        ++ Queue.ringSlice (Queue.get (Queue.put (Queue.put (Queue.init Nat 2) 4) 5)).1
          ((([] ++ [4]) ++ [5] : List Nat).length
            - ([] ++ [(Queue.get (Queue.put (Queue.put (Queue.init Nat 2) 4) 5)).2]
                : List (Option Nat)).length)) ∧
    ∀ x ∈ ([] ++ [(Queue.get (Queue.put (Queue.put (Queue.init Nat 2) 4) 5)).2]
        : List (Option Nat)), x ≠ none :=
  C5_channel_no_loss
    (Queue.Run.get (Queue.Run.put 5 (Queue.Run.put 4 Queue.Run.init rfl) rfl) rfl)
    (by omega)

namespace Script_0_10

/-- The button-event queue of `script_0_10.py` (class `Queue`).
`array.array(type_code, [0] * max_len)` is embedded as a `Nat` list filled
with 0 (the type code only selects the element width); `head`/`next` and
the `is_data`/`is_space` events as in `queue.py`.  Unlike `queue.py`, this
class has no producer lock and neither `add` nor `pop` contains an event
wait: both are coroutines without suspension points, so each runs
atomically and unconditionally once called. -/
structure Queue where
  max_len : Nat
  queue : List Nat
  head : Nat
  next : Nat
  is_data : Bool
  is_space : Bool

/-- `Queue.__init__` of `script_0_10.py`: zero-filled ring, both indices
0, `is_data` clear, `is_space` set. -/
def Queue.init (max_len : Nat) : Queue :=
  ⟨max_len, List.replicate max_len 0, 0, 0, false, true⟩

/-- `Queue.add` of `script_0_10.py`: write the item at `next`
unconditionally — there is no `is_space` check and no suspension in the
method itself — then advance `next` mod `max_len`, clear `is_space` when
the ring became full, set `is_data`.  Called on an already full queue
(`next == head`), the write lands on the slot holding the oldest unread
item. -/
def Queue.add (s : Queue) (item : Nat) : Queue :=
  let nxt := (s.next + 1) % s.max_len
  { s with
    queue := s.queue.set s.next item
    next := nxt
    is_space := if nxt = s.head then false else s.is_space
    is_data := true }

/-- `Queue.pop` of `script_0_10.py`: read the slot at `head`
unconditionally — there is no `is_data` check and no suspension in the
method itself — then advance `head` mod `max_len`, clear `is_data` when
the ring became empty, set `is_space`; the read value is returned.
Called on an empty queue it returns whatever the slot holds (initially
the array fill value 0). -/
def Queue.pop (s : Queue) : Queue × Nat :=
  let item := s.queue.getD s.head 0
  let hd := (s.head + 1) % s.max_len
  ({ s with
     head := hd
     is_data := if hd = s.next then false else s.is_data
     is_space := true }, item)

end Script_0_10

/-- C5 counterexample: in `script_0_10.py`'s `Queue`, an `add` on a full
channel does not suspend — it completes and overwrites the oldest unread
item — and a `pop` on an empty channel does not suspend — it returns the
stale array fill.  Concretely, on a queue of capacity 1: after `add 7`
the channel is full (`is_space` clear); a further `add 8` nevertheless
runs and replaces the unread 7, so the ring holds only `[8]` and the
consumer receives 8 — item 7 is lost before ever being consumed; and
`pop` on the freshly initialised empty queue returns the fill value 0, a
sentinel that was never enqueued. -/
theorem C5_counterexample_add_overwrites :
    ((Script_0_10.Queue.init 1).add 7).is_space = false ∧
    (((Script_0_10.Queue.init 1).add 7).add 8).queue = [8] ∧
    ((((Script_0_10.Queue.init 1).add 7).add 8).pop).2 = 8 ∧
    ((Script_0_10.Queue.init 1).pop).2 = 0 := by
  refine ⟨by decide, by decide, by decide, by decide⟩

/-- Instance state of a `ServoSG9x` object (`script_0_9a.py` `__init__`):
endpoints, per-step increments, resolved motion checkpoint lists, current
pulse width and logical state; `pw_ns` and `state` start as `None`.  The
timing attributes (`transition_ms`, `step_ms`) only feed `sleep_ms` calls
and are not part of the embedding; `x_inc = 1` and `x_steps = 100` are
hard-coded constants of `__init__` and appear as the literals they are. -/
structure ServoSG9x where
  id : Nat
  off_ns : Int
  on_ns : Int
  pw_on_inc : Int
  pw_off_inc : Int
  on_coords : List (Int × Int)
  off_coords : List (Int × Int)
  pw_ns : Option Int
  state : Option Int
deriving DecidableEq

namespace ServoSG9x

/-- `ServoSG9x.__init__` of `script_0_9a.py`: convert the endpoint angles,
resolve the motion name (unknown names fall back to `linear`, `semaphore`
splits into `overshoot`/`bounce`), and derive the per-step increments
`pw_on_inc = (on_ns - off_ns) // x_steps` and `pw_off_inc = -pw_on_inc`. -/
def init (pin : Nat) (off_deg on_deg : ℚ) (motion : String) : ServoSG9x :=
  let off_ns := degrees_to_ns off_deg
  let on_ns := degrees_to_ns on_deg
  let mo := motion_on_off motion
  { id := pin
    off_ns := off_ns
    on_ns := on_ns
    pw_on_inc := Int.ediv (on_ns - off_ns) 100
    pw_off_inc := -(Int.ediv (on_ns - off_ns) 100)
    on_coords := motion_coords mo.1
    off_coords := motion_coords mo.2
    pw_ns := none
    state := none }

/-- `ServoSG9x.move_servo` of `script_0_9a.py`: a guarded `duty_ns` write.
The result lists the PWM writes performed: one when the demanded pulse
width lies within `[PW_MIN, PW_MAX]`, none otherwise (the out-of-range
demand is silently dropped).  The Python method returns `None`: no value
flows back to the caller. -/
def move_servo (pw_ : Int) : List Int :=
  if PW_MIN ≤ pw_ ∧ pw_ ≤ PW_MAX then [pw_] else []

/-- One segment of the `while x < x1` loop of `ServoSG9x.stepper`: the
successive values of `pw_` handed to `move_servo`, for the given number
`x1 - x_0` of iterations of step `x_inc = 1`. -/
def stepper_seg (pw seg : Int) : Nat → List Int
  | 0 => []
  | n + 1 => (pw + seg) :: stepper_seg (pw + seg) seg n

/-- The `pw_` values passed to `move_servo` by `ServoSG9x.stepper` of
`script_0_9a.py`, in order.  Each checkpoint segment restarts from
`pw_ = pw_inc_ * y_0 + start_pw` and advances by
`segment_pw_inc = (pw_inc_*y1 - pw_inc_*y_0) // (x1 - x_0)`; the divisor
`x1 - x_0` is positive for every profile of `motion_coords`, where Python
`//` is `Int.ediv`. -/
def stepper_writes (start_pw pw_inc : Int) : Int → Int → List (Int × Int) → List Int
  | _, _, [] => []
  | x0, y0, (x1, y1) :: rest =>
      stepper_seg (pw_inc * y0 + start_pw)
          (Int.ediv (pw_inc * y1 - pw_inc * y0) (x1 - x0)) (x1 - x0).toNat
        ++ stepper_writes start_pw pw_inc x1 y1 rest

/-- The final value of the loop variable `pw_` of `ServoSG9x.stepper` —
the value `script_0_9b.py` returns (`return pw_`) and compares against the
exact target to print the residual software setting error.  On an empty
checkpoint list `pw_` is never bound (Python would raise `NameError`);
that case is unreachable for the profiles of `motion_coords` and the
embedding returns 0 there. -/
def stepper_final (start_pw pw_inc : Int) : Int → Int → List (Int × Int) → Int
  | _, _, [] => 0
  | x0, y0, [(x1, y1)] =>
      pw_inc * y0 + start_pw
        + ((x1 - x0).toNat : Int) * Int.ediv (pw_inc * y1 - pw_inc * y0) (x1 - x0)
  | _, _, (x1, y1) :: r :: rs => stepper_final start_pw pw_inc x1 y1 (r :: rs)

/-- `ServoSG9x.set_off` of `script_0_9a.py`: direct move to the off
endpoint; records the off pulse width and OFF state.  The second component
lists the PWM writes performed. -/
def set_off (s : ServoSG9x) : ServoSG9x × List Int :=
  ({ s with pw_ns := some s.off_ns, state := some OFF }, move_servo s.off_ns)

/-- `ServoSG9x.set_on` of `script_0_9a.py`: direct move to the on
endpoint. -/
def set_on (s : ServoSG9x) : ServoSG9x × List Int :=
  ({ s with pw_ns := some s.on_ns, state := some ON }, move_servo s.on_ns)

/-- `ServoSG9x.set_on_off` of `script_0_9a.py`: no-op if the demand equals
the current state or is not OFF/ON; otherwise restore the pulse
(`duty_ns(self.pw_ns)`), run the stepper for the chosen direction, switch
the output off (`duty_ns(0)`), and persist the exact endpoint and the new
logical state.  The second component is the sequence of `duty_ns` writes:
the unguarded restore, the guarded stepper writes, and the final 0.  When
`pw_ns` is still `None`, Python raises `TypeError` inside `duty_ns` before
any state change; the embedding returns the state unchanged there. -/
def set_on_off (s : ServoSG9x) (demand_ : Int) : ServoSG9x × List Int :=
  if some demand_ = s.state then (s, [])
  else if demand_ = OFF then
    match s.pw_ns with
    | none => (s, [])
    | some pw =>
        ({ s with pw_ns := some s.off_ns, state := some OFF },
         pw :: ((stepper_writes pw s.pw_off_inc 0 0 s.off_coords).flatMap move_servo ++ [0]))
  else if demand_ = ON then
    match s.pw_ns with
    | none => (s, [])
    | some pw =>
        ({ s with pw_ns := some s.on_ns, state := some ON },
         pw :: ((stepper_writes pw s.pw_on_inc 0 0 s.on_coords).flatMap move_servo ++ [0]))
  else (s, [])

/-- Strict increase of the checkpoint x coordinates, starting above the
given origin; the property the claims assume of a motion profile. -/
def chainX : Int → List (Int × Int) → Bool
  | _, [] => true
  | x0, (x1, _) :: rest => decide (x0 < x1) && chainX x1 rest

end ServoSG9x

/-- `ServoGroup.match_demand` of `script_0_9a.py`:
`tasks[i] = servo_.move_servo(demand[srv_id])` for every demand entry,
then `await asyncio.gather(*tasks)`.  `move_servo` here is the synchronous
guarded `duty_ns` write above: it mutates no servo attribute and returns
`None`, so the servo map is unchanged and the per-entry result is only the
list of PWM writes the call performs (gather receives the `None` values,
not coroutines).  The demand dictionary is embedded as an association list
in iteration order. -/
def ServoGroup.match_demand (servos : Nat → ServoSG9x) (demand : List (Nat × Int)) :
    (Nat → ServoSG9x) × List (List Int) :=
  (servos, demand.map fun p => ServoSG9x.move_servo p.2)

/-- The concrete commissioning configuration used for the concrete-input
theorems: pin 0, off at 0°, on at 90°, linear profile, initialised to OFF
by `set_off` as `ServoGroup.initialise` does. -/
def servo_p0 : ServoSG9x :=
  (ServoSG9x.set_off (ServoSG9x.init 0 0 90 "linear")).1

/-- C2 (evaluation at the failing input): with servo 0 initialised OFF and
the demand batch `{0: ON}`, `script_0_9a.py`'s `ServoGroup.match_demand`
leaves servo 0 in state OFF — not the demanded ON — and its single task
performs no PWM write at all: `move_servo` receives the logical state 1
and silently drops it as an out-of-range pulse width, so no transition is
launched and no resulting state is produced. -/
theorem C2_match_demand_launches_nothing :
    ((ServoGroup.match_demand (fun _ => servo_p0) [(0, ServoSG9x.ON)]).1 0).state
        = some ServoSG9x.OFF ∧
    ((ServoGroup.match_demand (fun _ => servo_p0) [(0, ServoSG9x.ON)]).1 0).state
        ≠ some ServoSG9x.ON ∧
    (ServoGroup.match_demand (fun _ => servo_p0) [(0, ServoSG9x.ON)]).2 = [[]] := by
  refine ⟨rfl, by decide, by decide⟩

namespace ServoSG9x

/-- `set_on_off` with the demand already matched: immediate return, no
write, no state change. -/
theorem set_on_off_skip (s : ServoSG9x) (d : Int) (h : some d = s.state) :
    set_on_off s d = (s, []) := by
  simp only [set_on_off, if_pos h]

/-- `set_on_off` with a demand other than OFF/ON: immediate return. -/
theorem set_on_off_invalid (s : ServoSG9x) (d : Int) (h1 : ¬ some d = s.state)
    (h2 : d ≠ OFF) (h3 : d ≠ ON) : set_on_off s d = (s, []) := by
  simp only [set_on_off, if_neg h1, if_neg h2, if_neg h3]

/-- `set_on_off s OFF` before any direct positioning (`pw_ns` still
`None`): Python dies in `duty_ns(None)` with no state change. -/
theorem set_on_off_off_unset (s : ServoSG9x) (h1 : ¬ some OFF = s.state)
    (hpw : s.pw_ns = none) : set_on_off s OFF = (s, []) := by
  simp only [set_on_off, hpw, if_neg h1, if_pos rfl, if_true]

/-- `set_on_off s ON` before any direct positioning. -/
theorem set_on_off_on_unset (s : ServoSG9x) (h1 : ¬ some ON = s.state)
    (hpw : s.pw_ns = none) : set_on_off s ON = (s, []) := by
  simp only [set_on_off, hpw, if_neg h1, if_neg (by decide : ¬ (ON = OFF)), if_pos rfl,
    if_true]

/-- The OFF transition actually runs: restore write, stepper writes,
zero write; exact off endpoint and OFF state persisted. -/
theorem set_on_off_off_run (s : ServoSG9x) (pw : Int) (h1 : ¬ some OFF = s.state)
    (hpw : s.pw_ns = some pw) :
    set_on_off s OFF
      = ({ s with pw_ns := some s.off_ns, state := some OFF },
         pw :: ((stepper_writes pw s.pw_off_inc 0 0 s.off_coords).flatMap move_servo ++ [0])) := by
  simp only [set_on_off, hpw, if_neg h1, if_pos rfl, if_true]

/-- The ON transition actually runs. -/
theorem set_on_off_on_run (s : ServoSG9x) (pw : Int) (h1 : ¬ some ON = s.state)
    (hpw : s.pw_ns = some pw) :
    set_on_off s ON
      = ({ s with pw_ns := some s.on_ns, state := some ON },
         pw :: ((stepper_writes pw s.pw_on_inc 0 0 s.on_coords).flatMap move_servo ++ [0])) := by
  simp only [set_on_off, hpw, if_neg h1, if_neg (by decide : ¬ (ON = OFF)), if_pos rfl,
    if_true]

/-- Servo states reachable from construction with a given configuration by
any sequence of `set_off`, `set_on` and `set_on_off` calls. -/
inductive Reach (pin : Nat) (off_deg on_deg : ℚ) (motion : String) : ServoSG9x → Prop
  | init : Reach pin off_deg on_deg motion (init pin off_deg on_deg motion)
  | set_off {s : ServoSG9x} :
      Reach pin off_deg on_deg motion s → Reach pin off_deg on_deg motion (set_off s).1
  | set_on {s : ServoSG9x} :
      Reach pin off_deg on_deg motion s → Reach pin off_deg on_deg motion (set_on s).1
  | set_on_off {s : ServoSG9x} (d : Int) :
      Reach pin off_deg on_deg motion s → Reach pin off_deg on_deg motion (set_on_off s d).1

/-- Endpoint consistency: logical state OFF means the recorded position is
the off endpoint; ON means the on endpoint. -/
def EndpointInv (s : ServoSG9x) : Prop :=
  (s.state = some OFF → s.pw_ns = some s.off_ns) ∧
  (s.state = some ON → s.pw_ns = some s.on_ns)

end ServoSG9x

/-- C10: every servo operation preserves endpoint consistency — whenever
the logical state is OFF the recorded position `pw_ns` is exactly
`off_ns`, whenever it is ON it is exactly `on_ns`; `set_off`/`set_on`
establish the invariant and every completed `set_on_off` transition
re-establishes it by storing the exact endpoint, independent of any
rounding drift in the intermediate stepper writes. -/
theorem C10_endpoint_invariant (pin : Nat) (off_deg on_deg : ℚ) (motion : String)
    (s : ServoSG9x) (h : ServoSG9x.Reach pin off_deg on_deg motion s) :
    ServoSG9x.EndpointInv s := by
  induction h with
  | init =>
    constructor <;> intro hst <;> simp [ServoSG9x.init] at hst
  | set_off h ih =>
    exact ⟨fun _ => rfl, fun hst => absurd (Option.some.inj hst) (by decide)⟩
  | set_on h ih =>
    exact ⟨fun hst => absurd (Option.some.inj hst) (by decide), fun _ => rfl⟩
  | set_on_off d h ih =>
    rename_i s
    by_cases h1 : some d = s.state
    · rw [ServoSG9x.set_on_off_skip s d h1]
      exact ih
    · by_cases h2 : d = ServoSG9x.OFF
      · subst h2
        cases hpw : s.pw_ns with
        | none =>
          rw [ServoSG9x.set_on_off_off_unset s h1 hpw]
          exact ih
        | some pw =>
          rw [ServoSG9x.set_on_off_off_run s pw h1 hpw]
          exact ⟨fun _ => rfl, fun hst => absurd (Option.some.inj hst) (by decide)⟩
      · by_cases h3 : d = ServoSG9x.ON
        · subst h3
          cases hpw : s.pw_ns with
          | none =>
            rw [ServoSG9x.set_on_off_on_unset s h1 hpw]
            exact ih
          | some pw =>
            rw [ServoSG9x.set_on_off_on_run s pw h1 hpw]
            exact ⟨fun hst => absurd (Option.some.inj hst) (by decide), fun _ => rfl⟩
        · rw [ServoSG9x.set_on_off_invalid s d h1 h2 h3]
          exact ih

/-- Witness for `C10_endpoint_invariant`: the state reached by `set_off`
right after construction with the commissioning configuration. -/
theorem C10_endpoint_invariant_witness : ServoSG9x.EndpointInv servo_p0 :=
  C10_endpoint_invariant 0 0 90 "linear" servo_p0
    (ServoSG9x.Reach.set_off ServoSG9x.Reach.init)

namespace ServoSG9x

/-- A stepper segment performs one guarded write attempt per loop
iteration. -/
theorem stepper_seg_length (pw seg : Int) (n : Nat) :
    (stepper_seg pw seg n).length = n := by
  induction n generalizing pw with
  | zero => rfl
  | succ n ih => simp [stepper_seg, ih]

/-- The terminal x coordinate of a strictly increasing checkpoint chain
lies strictly beyond its origin. -/
theorem chainX_lt_getLast (coords : List (Int × Int)) (x0 xL yL : Int)
    (hchain : chainX x0 coords = true)
    (hlast : coords.getLast? = some (xL, yL)) : x0 < xL := by
  induction coords generalizing x0 with
  | nil => simp at hlast
  | cons p rest ih =>
    obtain ⟨x1, y1⟩ := p
    simp only [chainX, Bool.and_eq_true, decide_eq_true_eq] at hchain
    cases rest with
    | nil =>
      simp only [List.getLast?_singleton, Option.some.injEq, Prod.mk.injEq] at hlast
      omega
    | cons q rs =>
      rw [List.getLast?_cons_cons] at hlast
      exact lt_trans hchain.1 (ih x1 hchain.2 hlast)

/-- C1 count: over a strictly increasing chain the stepper attempts
exactly `xL - x0` writes — one per unit x step. -/
theorem stepper_writes_length (start pw_inc : Int) (coords : List (Int × Int))
    (x0 y0 xL yL : Int) (hchain : chainX x0 coords = true)
    (hlast : coords.getLast? = some (xL, yL)) :
    (stepper_writes start pw_inc x0 y0 coords).length = (xL - x0).toNat := by
  induction coords generalizing x0 y0 with
  | nil => simp at hlast
  | cons p rest ih =>
    obtain ⟨x1, y1⟩ := p
    simp only [chainX, Bool.and_eq_true, decide_eq_true_eq] at hchain
    cases rest with
    | nil =>
      simp only [List.getLast?_singleton, Option.some.injEq, Prod.mk.injEq] at hlast
      rw [show stepper_writes start pw_inc x0 y0 [(x1, y1)]
            = stepper_seg (pw_inc * y0 + start)
                (Int.ediv (pw_inc * y1 - pw_inc * y0) (x1 - x0)) (x1 - x0).toNat
              ++ stepper_writes start pw_inc x1 y1 [] from rfl,
          show stepper_writes start pw_inc x1 y1 [] = [] from rfl,
          List.append_nil, stepper_seg_length]
      omega
    | cons q rs =>
      rw [List.getLast?_cons_cons] at hlast
      have hx1L : x1 < xL := chainX_lt_getLast (q :: rs) x1 xL yL hchain.2 hlast
      rw [show stepper_writes start pw_inc x0 y0 ((x1, y1) :: q :: rs)
            = stepper_seg (pw_inc * y0 + start)
                (Int.ediv (pw_inc * y1 - pw_inc * y0) (x1 - x0)) (x1 - x0).toNat
              ++ stepper_writes start pw_inc x1 y1 (q :: rs) from rfl,
          List.length_append, stepper_seg_length, ih x1 y1 hchain.2 hlast]
      omega

/-- C1 drift bound: the final loop value of `pw_` lands within 100 ns
below the ideal `start + pw_inc * yL` (each segment restarts exactly at
`pw_inc * y_0 + start`, so floor-division drift does not accumulate across
segments and is bounded by the final segment's length). -/
theorem stepper_final_bounds (start pw_inc : Int) (coords : List (Int × Int))
    (x0 y0 xL yL : Int) (hchain : chainX x0 coords = true)
    (hlast : coords.getLast? = some (xL, yL)) (hx0 : 0 ≤ x0) (hxL : xL ≤ 100) :
    start + pw_inc * yL - 100 < stepper_final start pw_inc x0 y0 coords ∧
    stepper_final start pw_inc x0 y0 coords ≤ start + pw_inc * yL := by
  induction coords generalizing x0 y0 with
  | nil => simp at hlast
  | cons p rest ih =>
    obtain ⟨x1, y1⟩ := p
    simp only [chainX, Bool.and_eq_true, decide_eq_true_eq] at hchain
    cases rest with
    | nil =>
      simp only [List.getLast?_singleton, Option.some.injEq, Prod.mk.injEq] at hlast
      obtain ⟨h1, h2⟩ := hlast
      subst h1
      subst h2
      have hd : (0 : Int) < x1 - x0 := by omega
      have hcast : ((x1 - x0).toNat : Int) = x1 - x0 := Int.toNat_of_nonneg (by omega)
      have hdm : (x1 - x0) * Int.ediv (pw_inc * y1 - pw_inc * y0) (x1 - x0)
            + Int.emod (pw_inc * y1 - pw_inc * y0) (x1 - x0)
          = pw_inc * y1 - pw_inc * y0 :=
        Int.ediv_add_emod (pw_inc * y1 - pw_inc * y0) (x1 - x0)
      have hr0 : 0 ≤ Int.emod (pw_inc * y1 - pw_inc * y0) (x1 - x0) :=
        Int.emod_nonneg _ (by omega)
      have hr1 : Int.emod (pw_inc * y1 - pw_inc * y0) (x1 - x0) < x1 - x0 :=
        Int.emod_lt_of_pos _ hd
      simp only [stepper_final, hcast]
      constructor
      · linarith [hdm, hr0, hr1, hchain.1]
      · linarith [hdm, hr0, hr1, hchain.1]
    | cons q rs =>
      rw [List.getLast?_cons_cons] at hlast
      simp only [stepper_final]
      exact ih x1 y1 hchain.2 hlast (by omega)

end ServoSG9x

/-- The commissioning servo evaluated to a literal record (the `ℚ`-valued
angle conversion is evaluated by `norm_num`; the kernel does not reduce
rational arithmetic). -/
theorem servo_p0_eq :
    servo_p0
      = { id := 0, off_ns := 500000, on_ns := 1499990, pw_on_inc := 9999,
          pw_off_inc := -9999, on_coords := [(100, 100)],
          off_coords := [(100, 100)], pw_ns := some 500000,
          state := some ServoSG9x.OFF } := by
  have hns : ServoSG9x.NS_PER_DEGREE = 11111 := by decide
  have h0 : ServoSG9x.degrees_to_ns 0 = 500000 := by
    rw [ServoSG9x.degrees_to_ns, if_pos]
    · rw [hns]
      norm_num [ServoSG9x.PW_MIN, ServoSG9x.DEG_MIN]
    · constructor <;> norm_num [ServoSG9x.DEG_MIN, ServoSG9x.DEG_MAX]
  have h90 : ServoSG9x.degrees_to_ns 90 = 1499990 := by
    rw [ServoSG9x.degrees_to_ns, if_pos]
    · rw [hns]
      norm_num [ServoSG9x.PW_MIN, ServoSG9x.DEG_MIN]
    · constructor <;> norm_num [ServoSG9x.DEG_MIN, ServoSG9x.DEG_MAX]
  simp only [servo_p0, ServoSG9x.set_off, ServoSG9x.init, h0, h90]
  decide

/-- C1 counterexample: for the commissioning servo (off 0°, on 90°, linear
profile) transitioning OFF→ON, the exact target pulse width (`on_ns` =
1499990 ns) is never written to the PWM output — there is no final exact
write; instead the trace ends with the disable write 0 while the exact
target and the new state are only persisted in `pw_ns`/`state`. -/
theorem C1_counterexample_no_exact_final_write :
    servo_p0.on_ns = 1499990 ∧
    servo_p0.on_ns ∉ (ServoSG9x.set_on_off servo_p0 ServoSG9x.ON).2 ∧
    (ServoSG9x.set_on_off servo_p0 ServoSG9x.ON).2.getLast? = some 0 ∧
    (ServoSG9x.set_on_off servo_p0 ServoSG9x.ON).1.pw_ns = some servo_p0.on_ns ∧
    (ServoSG9x.set_on_off servo_p0 ServoSG9x.ON).1.state = some ServoSG9x.ON := by
  rw [servo_p0_eq]
  refine ⟨by decide, by decide, by decide, by decide, by decide⟩

/-- C1 (amended): for a transition (demand OFF or ON, differing from the
current state, starting from the opposite endpoint) over a profile whose
checkpoints strictly increase in x from 0 to the terminal point
(100, 100), `set_on_off` makes exactly 100 stepped write attempts (each
dropped by the `move_servo` range guard if outside `[PW_MIN, PW_MAX]`);
the written trace is the exact start pulse width, then the guarded stepped
writes, then the disable write 0 — no exact-target write occurs; the exact
target pulse width and the new logical state are persisted; and the final
stepped value differs from the exact target by less than 200 ns. -/
theorem C1_amended_profile_transition (s : ServoSG9x) (d start : Int)
    (hd : d = ServoSG9x.OFF ∨ d = ServoSG9x.ON)
    (hne : s.state ≠ some d)
    (hpw : s.pw_ns = some start)
    (hstart : start = (if d = ServoSG9x.ON then s.off_ns else s.on_ns))
    (hon : s.pw_on_inc = Int.ediv (s.on_ns - s.off_ns) 100)
    (hoff : s.pw_off_inc = -(Int.ediv (s.on_ns - s.off_ns) 100))
    (hchain : ServoSG9x.chainX 0 (if d = ServoSG9x.ON then s.on_coords else s.off_coords) = true)
    (hlast : (if d = ServoSG9x.ON then s.on_coords else s.off_coords).getLast?
      = some (100, 100)) :
    ((ServoSG9x.stepper_writes start
        (if d = ServoSG9x.ON then s.pw_on_inc else s.pw_off_inc) 0 0
        (if d = ServoSG9x.ON then s.on_coords else s.off_coords)).length = 100) ∧
    ((ServoSG9x.set_on_off s d).2
      = start :: ((ServoSG9x.stepper_writes start
          (if d = ServoSG9x.ON then s.pw_on_inc else s.pw_off_inc) 0 0
          (if d = ServoSG9x.ON then s.on_coords else s.off_coords)).flatMap
            ServoSG9x.move_servo ++ [0])) ∧
    ((ServoSG9x.set_on_off s d).1.pw_ns
      = some (if d = ServoSG9x.ON then s.on_ns else s.off_ns)) ∧
    ((ServoSG9x.set_on_off s d).1.state = some d) ∧
    ((if d = ServoSG9x.ON then s.on_ns else s.off_ns) - 200
        < ServoSG9x.stepper_final start
            (if d = ServoSG9x.ON then s.pw_on_inc else s.pw_off_inc) 0 0
            (if d = ServoSG9x.ON then s.on_coords else s.off_coords)
      ∧ ServoSG9x.stepper_final start
            (if d = ServoSG9x.ON then s.pw_on_inc else s.pw_off_inc) 0 0
            (if d = ServoSG9x.ON then s.on_coords else s.off_coords)
          < (if d = ServoSG9x.ON then s.on_ns else s.off_ns) + 200) := by
  have hdm2 : (100 : Int) * Int.ediv (s.on_ns - s.off_ns) 100
        + Int.emod (s.on_ns - s.off_ns) 100 = s.on_ns - s.off_ns :=
    Int.ediv_add_emod (s.on_ns - s.off_ns) 100
  have hr0 : 0 ≤ Int.emod (s.on_ns - s.off_ns) 100 :=
    Int.emod_nonneg _ (by norm_num)
  have hr1 : Int.emod (s.on_ns - s.off_ns) 100 < 100 :=
    Int.emod_lt_of_pos _ (by norm_num)
  rcases hd with rfl | rfl
  · have e0 : ¬ (ServoSG9x.OFF = ServoSG9x.ON) := by decide
    simp only [if_neg e0] at hstart hchain hlast ⊢
    rw [ServoSG9x.set_on_off_off_run s start (fun h => hne h.symm) hpw]
    have hb := ServoSG9x.stepper_final_bounds start s.pw_off_inc s.off_coords 0 0 100 100
      hchain hlast (le_refl 0) (by norm_num)
    rw [hoff] at hb
    subst hstart
    refine ⟨?_, rfl, rfl, rfl, ?_, ?_⟩
    · rw [ServoSG9x.stepper_writes_length _ s.pw_off_inc s.off_coords 0 0 100 100
        hchain hlast]
      rfl
    · rw [hoff]
      linarith [hb.1, hb.2]
    · rw [hoff]
      linarith [hb.1, hb.2]
  · have e1 : (ServoSG9x.ON = ServoSG9x.ON) := rfl
    simp only [if_pos e1, if_true] at hstart hchain hlast ⊢
    rw [ServoSG9x.set_on_off_on_run s start (fun h => hne h.symm) hpw]
    have hb := ServoSG9x.stepper_final_bounds start s.pw_on_inc s.on_coords 0 0 100 100
      hchain hlast (le_refl 0) (by norm_num)
    rw [hon] at hb
    subst hstart
    refine ⟨?_, rfl, rfl, rfl, ?_, ?_⟩
    · rw [ServoSG9x.stepper_writes_length _ s.pw_on_inc s.on_coords 0 0 100 100
        hchain hlast]
      rfl
    · rw [hon]
      linarith [hb.1, hb.2]
    · rw [hon]
      linarith [hb.1, hb.2]

/-- Witness for `C1_amended_profile_transition`: the OFF→ON transition of
the commissioning servo. -/
theorem C1_amended_profile_transition_witness :
    (ServoSG9x.stepper_writes 500000 servo_p0.pw_on_inc 0 0 servo_p0.on_coords).length
        = 100 ∧
    (ServoSG9x.set_on_off servo_p0 ServoSG9x.ON).2
      = 500000 :: ((ServoSG9x.stepper_writes 500000 servo_p0.pw_on_inc 0 0
          servo_p0.on_coords).flatMap ServoSG9x.move_servo ++ [0]) ∧
    (ServoSG9x.set_on_off servo_p0 ServoSG9x.ON).1.pw_ns = some servo_p0.on_ns ∧
    (ServoSG9x.set_on_off servo_p0 ServoSG9x.ON).1.state = some ServoSG9x.ON ∧
    (servo_p0.on_ns - 200
        < ServoSG9x.stepper_final 500000 servo_p0.pw_on_inc 0 0 servo_p0.on_coords
      ∧ ServoSG9x.stepper_final 500000 servo_p0.pw_on_inc 0 0 servo_p0.on_coords
          < servo_p0.on_ns + 200) :=
  C1_amended_profile_transition servo_p0 ServoSG9x.ON 500000 (Or.inr rfl)
    (by rw [servo_p0_eq]; try decide) (by rw [servo_p0_eq]; try decide)
    (by rw [servo_p0_eq]; try decide) (by rw [servo_p0_eq]; try decide)
    (by rw [servo_p0_eq]; try decide) (by rw [servo_p0_eq]; try decide)
    (by rw [servo_p0_eq]; try decide)
